import Mathlib

/-!
# Verification of the `tongues` image-translation pipeline

A shallow embedding of `src/pipeline.js`: the MIME resolver, the JSON-array
extractor (including a model of `JSON.parse`), the extraction / translation /
render stages, and the two public orchestrator operations, together with
theorems settling the behavioural claims about them.

Modelling conventions:
* Strings are Lean `String`s (sequences of Unicode scalar values); the
  JavaScript engine's UTF-16 code-unit view only differs on astral code
  points, which none of the contracts depend on.
* File contents are lists of bytes (`Fin 256`); the file system is a partial
  map from paths to contents.
* The Gemini transport is an oracle: a queue of pending `ModelResponse`
  values.  Each `generateContent` call pops one response and bumps a call
  counter; the request payload (prompt text) is not observable in this model,
  only the response handling is embedded.
* Fallible JavaScript code becomes `Except PipelineError`; an uncaught
  `JSON.parse` exception is the distinguished `jsonParseError` value.
-/

namespace Tongues

/-! ## JavaScript string primitives -/

/-- The whitespace class used by JavaScript's `String.prototype.trim` and the
regex class `\s` (restricted to the code points that can actually occur in
the inputs of interest). -/
def jsWhitespace (c : Char) : Bool :=
  c = ' ' ∨ c = '\t' ∨ c = '\n' ∨ c = '\r' ∨ c = '\x0b' ∨ c = '\x0c' ∨
    c = '\u00A0' ∨ c = '\u2028' ∨ c = '\u2029' ∨ c = '\uFEFF'

/-- Model of `String.prototype.trim` on a character list. -/
def jsTrimChars (cs : List Char) : List Char :=
  ((cs.dropWhile jsWhitespace).reverse.dropWhile jsWhitespace).reverse

/-- ASCII lower-casing of one character, as `toLowerCase` behaves on the
ASCII range (the only range exercised by file extensions here). -/
def jsLowerChar (c : Char) : Char := c.toLower

/-- Model of `String.prototype.toLowerCase` (ASCII fragment). -/
def jsToLower (s : String) : String := String.mk (s.data.map jsLowerChar)

/-! ## `path.extname` (Node.js posix semantics) -/

/-- Drop trailing `/` separators, as Node's path parsing does. -/
def dropTrailingSlashes (cs : List Char) : List Char :=
  (cs.reverse.dropWhile (· = '/')).reverse

/-- The last path component (after the last `/`, ignoring trailing slashes). -/
def lastComponent (cs : List Char) : List Char :=
  ((dropTrailingSlashes cs).reverse.takeWhile (· ≠ '/')).reverse

/-- Index of the last `.` in a character list, if any. -/
def lastDotIndex (cs : List Char) : Option Nat :=
  (cs.reverse.findIdx? (· = '.')).map (fun k => cs.length - 1 - k)

/-- Model of `path.extname`: the extension of the last path component, from its last
dot to the end; empty when there is no dot, when the only dot is the leading
character (dot-files), or for the special component `..`. -/
def extname (p : String) : String :=
  let b := lastComponent p.data
  if b = ['.', '.'] then "" else
  match lastDotIndex b with
  | none => ""
  | some 0 => ""
  | some j => String.mk (b.drop j)

/-! ## Errors -/

/-- The error outcomes the pipeline can produce.  Every constructor except
`jsonParseError` corresponds to an `Error` thrown by `src/pipeline.js` with
a fixed message template; `jsonParseError` stands for an engine-raised
`SyntaxError` escaping `JSON.parse` (its runtime message is
engine-specific and not part of any contract). -/
inductive PipelineError where
  | inputNotFound (path : String)
  | missingCredential
  | outputExists (path : String)
  | unsupportedFormat (extension : String)
  | malformedModelOutput
  | missingRenderedImage
  | jsonParseError
  | ioReadError (path : String)
deriving DecidableEq, Repr

/-- The user-visible message of each pipeline error, reproducing the
template strings of `src/pipeline.js` (with `extension || "(none)"`
rendered explicitly). -/
def PipelineError.message : PipelineError → String
  | .inputNotFound path => "Input file not found: " ++ path
  | .missingCredential => "GEMINI_API_KEY is required. Set it or pass --api-key."
  | .outputExists path =>
      "Output file already exists: " ++ path ++ ". Use --force to overwrite."
  | .unsupportedFormat extension =>
      "Unsupported image extension: " ++ (if extension = "" then "(none)" else extension)
  | .malformedModelOutput => "Model output did not contain a valid JSON array."
  | .missingRenderedImage => "Gemini did not return an image."
  | .jsonParseError => "SyntaxError"
  | .ioReadError path => "ENOENT: " ++ path

/-! ## MimeResolver -/

/-- The supported extension set of `src/pipeline.js`. -/
def SUPPORTED_EXTENSIONS : List String := [".png", ".jpg", ".jpeg", ".webp", ".heic"]

/-- The function `inferMimeType` from `src/pipeline.js`: lower-case the extension, reject
anything outside the supported set, then map to the media type. -/
def inferMimeType (filePath : String) : Except PipelineError String :=
  let extension := jsToLower (extname filePath)
  if ¬ (SUPPORTED_EXTENSIONS.contains extension) then
    .error (.unsupportedFormat extension)
  else if extension = ".png" then .ok "image/png"
  else if extension = ".jpg" ∨ extension = ".jpeg" then .ok "image/jpeg"
  else if extension = ".webp" then .ok "image/webp"
  else .ok "image/heic"

/-! ## JSON values and a model of `JSON.parse`

JSON numbers are modelled as exact rationals: every JSON numeric literal in
the pipeline's range of interest (array indices and short decimals) denotes
the same value under IEEE doubles and under `ℚ`, and `translateEntries`
compares indices by numeric value, which `ℚ` reproduces. -/

/-- A parsed JSON value (object members kept in textual order; duplicate
keys are resolved at lookup time, last one winning, as `JSON.parse` does). -/
inductive Json where
  | null
  | bool (b : Bool)
  | num (q : ℚ)
  | str (s : String)
  | arr (items : List Json)
  | obj (members : List (String × Json))

/-- JavaScript property access `value[key]` for the keys the pipeline reads:
`undefined` (here `none`) unless the value is an object carrying the key;
with duplicate keys the last occurrence wins, as in `JSON.parse`. -/
def jsonField (v : Json) (key : String) : Option Json :=
  match v with
  | .obj members => (members.reverse.find? (fun kv => kv.1 = key)).map (fun kv => kv.2)
  | _ => none

/-- The whitespace accepted between JSON tokens (per ECMA-404, which is what
`JSON.parse` implements — narrower than `\s`). -/
def jsonWs (c : Char) : Bool := c = ' ' ∨ c = '\t' ∨ c = '\n' ∨ c = '\r'

/-- Skip inter-token whitespace. -/
def skipJsonWs (cs : List Char) : List Char := cs.dropWhile jsonWs

/-- Hexadecimal digit value. -/
def hexVal (c : Char) : Option Nat :=
  if c.isDigit then some (c.toNat - '0'.toNat)
  else if 'a' ≤ c ∧ c ≤ 'f' then some (c.toNat - 'a'.toNat + 10)
  else if 'A' ≤ c ∧ c ≤ 'F' then some (c.toNat - 'A'.toNat + 10)
  else none

/-- Value of a four-digit hex escape. -/
def hex4 (a b c d : Char) : Option Nat := do
  let va ← hexVal a
  let vb ← hexVal b
  let vc ← hexVal c
  let vd ← hexVal d
  pure (((va * 16 + vb) * 16 + vc) * 16 + vd)

/-- Decode one `\uXXXX` escape (the four hex digits plus what follows).
A high/low surrogate pair combines into one scalar value; an unpaired
surrogate becomes U+FFFD (JS strings would keep the lone code unit, which a
scalar-value string cannot represent — no contract here depends on it). -/
def parseUnicodeEscape (a b c d : Char) (rest : List Char) : Option (Char × List Char) :=
  match hex4 a b c d with
  | none => none
  | some n =>
    if 0xD800 ≤ n ∧ n ≤ 0xDBFF then
      match rest with
      | '\\' :: 'u' :: a2 :: b2 :: c2 :: d2 :: r2 =>
        (match hex4 a2 b2 c2 d2 with
         | some m =>
           if 0xDC00 ≤ m ∧ m ≤ 0xDFFF then
             some (Char.ofNat (0x10000 + (n - 0xD800) * 0x400 + (m - 0xDC00)), r2)
           else some ('�', rest)
         | none => some ('�', rest))
      | _ => some ('�', rest)
    else if 0xDC00 ≤ n ∧ n ≤ 0xDFFF then some ('�', rest)
    else some (Char.ofNat n, rest)

/-- String body parser (after the opening quote).  Fuel is the remaining
input length plus one; every step consumes at least one character, so the
fuel never actually runs out. -/
def parseStringLoop : Nat → List Char → List Char → Option (String × List Char)
  | 0, _, _ => none
  | fuel + 1, acc, cs =>
    match cs with
    | '"' :: rest => some (String.mk acc.reverse, rest)
    | '\\' :: rest =>
      (match rest with
       | '"' :: r => parseStringLoop fuel ('"' :: acc) r
       | '\\' :: r => parseStringLoop fuel ('\\' :: acc) r
       | '/' :: r => parseStringLoop fuel ('/' :: acc) r
       | 'b' :: r => parseStringLoop fuel ('\x08' :: acc) r
       | 'f' :: r => parseStringLoop fuel ('\x0c' :: acc) r
       | 'n' :: r => parseStringLoop fuel ('\n' :: acc) r
       | 'r' :: r => parseStringLoop fuel ('\r' :: acc) r
       | 't' :: r => parseStringLoop fuel ('\t' :: acc) r
       | 'u' :: a :: b :: c :: d :: r =>
         (match parseUnicodeEscape a b c d r with
          | some (ch, r2) => parseStringLoop fuel (ch :: acc) r2
          | none => none)
       | _ => none)
    | c :: rest =>
      if c.toNat < 0x20 then none else parseStringLoop fuel (c :: acc) rest
    | [] => none

/-- Parse a JSON string body starting just after the opening quote. -/
def parseStringRest (cs : List Char) : Option (String × List Char) :=
  parseStringLoop (cs.length + 1) [] cs

/-- Maximal run of decimal digits. -/
def takeDigits (cs : List Char) : List Char × List Char :=
  (cs.takeWhile Char.isDigit, cs.dropWhile Char.isDigit)

/-- Numeric value of a digit run. -/
def digitsToNat (ds : List Char) : Nat :=
  ds.foldl (fun a c => a * 10 + (c.toNat - '0'.toNat)) 0

/-- Fraction and exponent suffix of a JSON number.  A `.` or `e` not
followed by a digit is left unconsumed; the resulting leftover makes the
surrounding parse fail, exactly where `JSON.parse` raises. -/
def parseFracExp (neg : Bool) (ip : Nat) (cs : List Char) : ℚ × List Char :=
  let (fds, cs2) : List Char × List Char :=
    match cs with
    | '.' :: r =>
      (match takeDigits r with
       | ([], _) => ([], cs)
       | (ds, r2) => (ds, r2))
    | _ => ([], cs)
  let (hasExp, expNeg, eds, cs3) : Bool × Bool × List Char × List Char :=
    match cs2 with
    | 'e' :: r | 'E' :: r =>
      (match r with
       | '+' :: r1 =>
         (match takeDigits r1 with
          | ([], _) => (false, false, [], cs2)
          | (ds, r2) => (true, false, ds, r2))
       | '-' :: r1 =>
         (match takeDigits r1 with
          | ([], _) => (false, false, [], cs2)
          | (ds, r2) => (true, true, ds, r2))
       | _ =>
         (match takeDigits r with
          | ([], _) => (false, false, [], cs2)
          | (ds, r2) => (true, false, ds, r2)))
    | _ => (false, false, [], cs2)
  let mantissa : ℚ := (ip : ℚ) + (digitsToNat fds : ℚ) / ((10 : ℚ) ^ fds.length)
  let scaled : ℚ :=
    if hasExp then
      if expNeg then mantissa / ((10 : ℚ) ^ digitsToNat eds)
      else mantissa * ((10 : ℚ) ^ digitsToNat eds)
    else mantissa
  (if neg then -scaled else scaled, cs3)

/-- A JSON number literal: optional minus, `0` or a nonzero-led digit run,
optional fraction, optional exponent. -/
def parseNumberJson (cs : List Char) : Option (ℚ × List Char) :=
  let (neg, cs1) : Bool × List Char :=
    match cs with
    | '-' :: r => (true, r)
    | _ => (false, cs)
  match cs1 with
  | '0' :: r => some (parseFracExp neg 0 r)
  | c :: _ =>
    if c.isDigit then
      let (ds, r2) := takeDigits cs1
      some (parseFracExp neg (digitsToNat ds) r2)
    else none
  | [] => none

mutual
/-- A JSON value.  Structural on the fuel; callers supply fuel at least
twice the input length, which the grammar can never exhaust. -/
def parseValue : Nat → List Char → Option (Json × List Char)
  | 0, _ => none
  | fuel + 1, cs =>
    match skipJsonWs cs with
    | 'n' :: 'u' :: 'l' :: 'l' :: r => some (.null, r)
    | 't' :: 'r' :: 'u' :: 'e' :: r => some (.bool true, r)
    | 'f' :: 'a' :: 'l' :: 's' :: 'e' :: r => some (.bool false, r)
    | '"' :: r => (parseStringRest r).map (fun p => (.str p.1, p.2))
    | '[' :: r =>
      (match skipJsonWs r with
       | ']' :: r2 => some (.arr [], r2)
       | _ => (parseArrayLoop fuel r).map (fun p => (.arr p.1, p.2)))
    | '{' :: r =>
      (match skipJsonWs r with
       | '}' :: r2 => some (.obj [], r2)
       | _ => (parseObjectLoop fuel r).map (fun p => (.obj p.1, p.2)))
    | c :: r =>
      if c = '-' ∨ c.isDigit then (parseNumberJson (c :: r)).map (fun p => (.num p.1, p.2))
      else none
    | [] => none

/-- One-or-more comma-separated array elements (the empty array is handled
before entering the loop). -/
def parseArrayLoop : Nat → List Char → Option (List Json × List Char)
  | 0, _ => none
  | fuel + 1, cs =>
    match parseValue fuel cs with
    | none => none
    | some (v, r) =>
      match skipJsonWs r with
      | ',' :: r2 => (parseArrayLoop fuel r2).map (fun p => (v :: p.1, p.2))
      | ']' :: r2 => some ([v], r2)
      | _ => none

/-- One-or-more comma-separated object members. -/
def parseObjectLoop : Nat → List Char → Option (List (String × Json) × List Char)
  | 0, _ => none
  | fuel + 1, cs =>
    match skipJsonWs cs with
    | '"' :: r =>
      (match parseStringRest r with
       | none => none
       | some (key, r1) =>
         match skipJsonWs r1 with
         | ':' :: r2 =>
           (match parseValue fuel r2 with
            | none => none
            | some (v, r3) =>
              match skipJsonWs r3 with
              | ',' :: r4 => (parseObjectLoop fuel r4).map (fun p => ((key, v) :: p.1, p.2))
              | '}' :: r4 => some ([(key, v)], r4)
              | _ => none)
         | _ => none)
    | _ => none
end

/-- Model of `JSON.parse` on a character list: one value, then only whitespace. -/
def jsonParseChars (cs : List Char) : Option Json :=
  match parseValue (2 * cs.length + 4) cs with
  | some (v, rest) => if skipJsonWs rest = [] then some v else none
  | none => none

/-- Model of `JSON.parse` on a string: `some` the value, `none` a `SyntaxError`. -/
def jsonParse (s : String) : Option Json := jsonParseChars s.data

/-! ## JsonArrayExtractor (`parseJsonArray`) -/

/-- Backtick recognition (by code point, 96). -/
def isTick (c : Char) : Bool := c.toNat = 96

/-- Strip a leading code fence matching the JS regex for three backticks
followed by a case-insensitive `json` tag and any following whitespace;
anything else is left untouched. -/
def stripLeadingFence (cs : List Char) : List Char :=
  match cs with
  | c0 :: c1 :: c2 :: c3 :: c4 :: c5 :: c6 :: rest =>
    if isTick c0 ∧ isTick c1 ∧ isTick c2 ∧ jsLowerChar c3 = 'j' ∧
        jsLowerChar c4 = 's' ∧ jsLowerChar c5 = 'o' ∧ jsLowerChar c6 = 'n' then
      rest.dropWhile jsWhitespace
    else cs
  | _ => cs

/-- Strip a trailing fence of three backticks, if present (the JS regex is
anchored at the very end of the string). -/
def stripTrailingFence (cs : List Char) : List Char :=
  match cs.reverse with
  | c0 :: c1 :: c2 :: rest =>
    if isTick c0 ∧ isTick c1 ∧ isTick c2 then rest.reverse else cs
  | _ => cs

/-- The `unfenced` text of `parseJsonArray`: trim, strip fences, trim. -/
def unfencedText (cs : List Char) : List Char :=
  jsTrimChars (stripTrailingFence (stripLeadingFence (jsTrimChars cs)))

/-- Position of the first open bracket, as `indexOf("[")` finds it. -/
def firstOpenIdx (cs : List Char) : Option Nat := cs.findIdx? (· = '[')

/-- Position of the last close bracket, as `lastIndexOf("]")` finds it. -/
def lastCloseIdx (cs : List Char) : Option Nat :=
  (cs.reverse.findIdx? (· = ']')).map (fun k => cs.length - 1 - k)

/-- The substring the bracket-recovery path hands to `JSON.parse`: from the
first `[` through the last `]`, provided the latter comes strictly later. -/
def bracketSlice (cs : List Char) : Option (List Char) :=
  match firstOpenIdx cs, lastCloseIdx cs with
  | some s, some e => if s < e then some ((cs.drop s).take (e + 1 - s)) else none
  | _, _ => none

/-- The bracket-recovery path of `parseJsonArray`, reached when the direct
parse attempt does not produce an array.  The slice's `JSON.parse` call is
NOT wrapped in try/catch in the source, so its failure escapes as a raw
engine error (`jsonParseError`) instead of reaching the final `throw`. -/
def bracketFallback (unfenced : List Char) : Except PipelineError (List Json) :=
  match bracketSlice unfenced with
  | some slice =>
    (match jsonParseChars slice with
     | some (Json.arr items) => .ok items
     | some _ => .error .malformedModelOutput
     | none => .error .jsonParseError)
  | none => .error .malformedModelOutput

/-- The function `parseJsonArray` from `src/pipeline.js`: unfence and trim, try a direct
parse (its try/catch also lets a successfully-parsed non-array fall
through), then the bracket-recovery path. -/
def parseJsonArray (rawText : String) : Except PipelineError (List Json) :=
  let unfenced := unfencedText rawText.data
  match jsonParseChars unfenced with
  | some (Json.arr items) => .ok items
  | _ => bracketFallback unfenced

/-! ## Base64 (Node `Buffer` encode/decode on clean input) -/

/-- The standard base64 alphabet. -/
def b64Alphabet : List Char :=
  "ABCDEFGHIJKLMNOPQRSTUVWXYZabcdefghijklmnopqrstuvwxyz0123456789+/".data

/-- Digit character of a sextet. -/
def b64Char (n : Nat) : Char := b64Alphabet.getD n 'A'

/-- Sextet of a digit character (`none` for `=` and any other non-digit,
which Node's lenient decoder skips). -/
def b64Index (c : Char) : Option Nat := b64Alphabet.findIdx? (· = c)

/-- Model of `Buffer.toString("base64")`: 3 bytes to 4 digits, with `=` padding. -/
def encodeChunks : List (Fin 256) → List Char
  | a :: b :: c :: rest =>
    b64Char (a.val / 4) :: b64Char (a.val % 4 * 16 + b.val / 16) ::
      b64Char (b.val % 16 * 4 + c.val / 64) :: b64Char (c.val % 64) :: encodeChunks rest
  | [a, b] =>
    [b64Char (a.val / 4), b64Char (a.val % 4 * 16 + b.val / 16), b64Char (b.val % 16 * 4), '=']
  | [a] => [b64Char (a.val / 4), b64Char (a.val % 4 * 16), '=', '=']
  | [] => []

/-- Base64 encoding of a byte list. -/
def base64Encode (bytes : List (Fin 256)) : String := String.mk (encodeChunks bytes)

/-- Reassemble bytes from sextets (4 digits to 3 bytes; 3 to 2; 2 to 1). -/
def decodeSextets : List Nat → List (Fin 256)
  | a :: b :: c :: d :: rest =>
    ⟨a % 64 * 4 + b % 64 / 16, by omega⟩ ::
      ⟨b % 64 % 16 * 16 + c % 64 / 4, by omega⟩ ::
      ⟨c % 64 % 4 * 64 + d % 64, by omega⟩ :: decodeSextets rest
  | [a, b, c] =>
    [⟨a % 64 * 4 + b % 64 / 16, by omega⟩, ⟨b % 64 % 16 * 16 + c % 64 / 4, by omega⟩]
  | [a, b] => [⟨a % 64 * 4 + b % 64 / 16, by omega⟩]
  | _ => []

/-- Model of `Buffer.from(s, "base64")`: non-digit characters (including padding)
are skipped, then sextets are packed back into bytes. -/
def base64Decode (s : String) : List (Fin 256) :=
  decodeSextets (s.data.filterMap b64Index)

/-! ## Node path helpers used by `defaultOutputPath` -/

/-- Model of `path.dirname` (posix). -/
def dirname (p : String) : String :=
  let cs := p.data
  let trimmed := dropTrailingSlashes cs
  match trimmed.reverse.findIdx? (· = '/') with
  | none => if trimmed = [] ∧ cs.headD ' ' = '/' then "/" else "."
  | some k =>
    let j := trimmed.length - 1 - k
    let dir := dropTrailingSlashes (trimmed.take j)
    if dir = [] then (if cs.headD ' ' = '/' then "/" else ".") else String.mk dir

/-- Model of `path.basename(p, ext)` (posix): the last component, minus a strict
`ext` suffix when one was supplied. -/
def basename (p : String) (ext : String) : String :=
  let b := String.mk (lastComponent p.data)
  if ext ≠ "" ∧ b.endsWith ext ∧ ext.length < b.length then
    b.take (b.length - ext.length)
  else b

/-- Model of `path.join(dir, name)`: concatenate then normalize (`.`, `..`, and
duplicate separators resolved). -/
def joinPath (dir name : String) : String :=
  let s := if dir = "" then name else if name = "" then dir else dir ++ "/" ++ name
  let absolute := s.startsWith "/"
  let comps := (s.splitOn "/").filter (fun c => c ≠ "" ∧ c ≠ ".")
  let resolved := comps.foldl
    (fun acc c =>
      if c = ".." then
        match acc with
        | [] => if absolute then [] else [c]
        | prev :: restAcc => if prev = ".." then c :: acc else restAcc
      else c :: acc)
    ([] : List String)
  let body := String.intercalate "/" resolved.reverse
  if absolute then "/" ++ body else if body = "" then "." else body

/-- The function `defaultOutputPath` from `src/pipeline.js`: insert `_translated` before
the extension, in the same directory. -/
def defaultOutputPath (inputPath : String) : String :=
  let extension := extname inputPath
  let baseName := basename inputPath extension
  joinPath (dirname inputPath) (baseName ++ "_translated" ++ extension)

/-! ## Data model -/

/-- A request for either public operation (`TranslateRequest`). -/
structure TranslateRequest where
  inputPath : String
  outputPath : Option String := none
  inputLang : Option String := none
  outputLang : Option String := none
  apiKey : Option String := none
  imageModel : Option String := none
  textModel : Option String := none
  force : Option Bool := none
deriving DecidableEq, Repr

/-- An extracted text entry. -/
structure ExtractedEntry where
  text : String
  language : Option String := none
deriving DecidableEq, Repr

/-- A public result row of `extractAndTranslateText`. -/
structure ExtractedTranslation where
  sourceText : String
  sourceLanguage : Option String := none
  translatedText : String
deriving DecidableEq, Repr

/-- The inline image payload sent with multimodal requests. -/
structure InlineImage where
  data : String
  mimeType : String
deriving DecidableEq, Repr

/-- Response-side inline binary payload (every field optional: the envelope
is duck-typed). -/
structure PartInlineData where
  data : Option String := none
deriving DecidableEq, Repr

/-- One content part of a model response. -/
structure Part where
  inlineData : Option PartInlineData := none
  text : Option String := none
deriving DecidableEq, Repr

/-- One response candidate (`candidates[i].content`). -/
structure Content where
  parts : Option (List Part) := none
deriving DecidableEq, Repr

/-- One response candidate. -/
structure Candidate where
  content : Option Content := none
deriving DecidableEq, Repr

/-- A `generateContent` response envelope: a free-text field and/or
candidates carrying content parts. -/
structure ModelResponse where
  text : Option String := none
  candidates : Option (List Candidate) := none
deriving DecidableEq, Repr

/-- The file system: a partial map from paths to byte contents. -/
def FS : Type := String → Option (List (Fin 256))

/-- Writing a file (`writeFile`): replaces or creates the path's contents. -/
def FS.write (fs : FS) (path : String) (bytes : List (Fin 256)) : FS :=
  fun q => if q = path then some bytes else fs q

/-- The upstream transport oracle: the queue of responses the model will
return, plus the number of `generateContent` calls made so far. -/
structure Upstream where
  pending : List ModelResponse
  calls : Nat

/-- One `generateContent` call: pop the next queued response (an exhausted
queue yields an empty envelope) and count the call. -/
def Upstream.next (u : Upstream) : ModelResponse × Upstream :=
  match u.pending with
  | [] => (⟨none, none⟩, ⟨[], u.calls + 1⟩)
  | r :: rest => (r, ⟨rest, u.calls + 1⟩)

/-! ## Orchestrator helpers -/

/-- The function `resolveApiKey`: explicit key, else the `GEMINI_API_KEY` environment
value; `undefined` or the (falsy) empty string fails. -/
def resolveApiKey (explicitApiKey : Option String) (env : Option String) :
    Except PipelineError String :=
  match explicitApiKey.orElse (fun _ => env) with
  | some key => if key = "" then .error .missingCredential else .ok key
  | none => .error .missingCredential

/-- The function `readInlineImage`: infer the media type, read the file, base64-encode.
(The orchestrators only call this after `ensureFileExists`, so the
`ioReadError` branch is unreachable there.) -/
def readInlineImage (fs : FS) (inputPath : String) : Except PipelineError InlineImage :=
  match inferMimeType inputPath with
  | .error e => .error e
  | .ok mimeType =>
    match fs inputPath with
    | some bytes => .ok ⟨base64Encode bytes, mimeType⟩
    | none => .error (.ioReadError inputPath)

/-! ## TextExtractionStage -/

/-- Normalization of one raw extraction item: `text` is its trimmed string
form (or empty if not a string); `language` is kept only when a string.
(`item ?? {}` turns JSON `null` into an empty object; property access on any
non-object JSON value yields `undefined` for these keys.) -/
def normalizeEntry (item : Json) : ExtractedEntry :=
  { text :=
      match jsonField item "text" with
      | some (.str s) => String.mk (jsTrimChars s.data)
      | _ => ""
    language :=
      match jsonField item "language" with
      | some (.str s) => some s
      | _ => none }

/-- The response-processing half of `extractTextEntries`: parse the response
text as a JSON array, normalize each item, drop entries with empty text. -/
def extractStage (response : ModelResponse) : Except PipelineError (List ExtractedEntry) :=
  match parseJsonArray (response.text.getD "") with
  | .error e => .error e
  | .ok rawItems => .ok ((rawItems.map normalizeEntry).filter (fun e => e.text ≠ ""))

/-- The function `extractTextEntries`: one multimodal call, then response processing. -/
def extractTextEntries (u : Upstream) :
    Except PipelineError (List ExtractedEntry) × Upstream :=
  let (response, u') := u.next
  (extractStage response, u')

/-! ## TranslationStage -/

/-- The string value of the item's `translation` field, or `""` when it is
missing or not a string — exactly what the JS assigns into the output slot. -/
def translationValue (item : Json) : String :=
  match jsonField item "translation" with
  | some (.str s) => s
  | _ => ""

/-- Apply one raw response item to the output array: skipped unless `index`
is a number inside `[0, len)`; a non-integral in-range number writes a
non-index object property, which `Array.prototype.map` never sees, so the
dense array is unchanged. -/
def applyTranslationItem (len : Nat) (acc : List String) (item : Json) : List String :=
  match jsonField item "index" with
  | some (.num q) =>
    if q < 0 ∨ (len : ℚ) ≤ q then acc
    else if q.den = 1 then acc.set q.num.toNat (translationValue item)
    else acc
  | _ => acc

/-- Fold the raw items over an all-empty output array of length `len`
(later writes to the same index overwrite earlier ones). -/
def mergeTranslations (len : Nat) (rawItems : List Json) : List String :=
  rawItems.foldl (applyTranslationItem len) (List.replicate len "")

/-- The response-processing half of `translateEntries`: parse, merge by
index, then substitute the source text for every (falsy) empty slot.  The
positional map over the output array equals this `zipWith` because the
output array is built with exactly `entries.length` slots. -/
def translateStage (entries : List ExtractedEntry) (response : ModelResponse) :
    Except PipelineError (List String) :=
  match parseJsonArray (response.text.getD "") with
  | .error e => .error e
  | .ok rawItems =>
    .ok ((mergeTranslations entries.length rawItems).zipWith
      (fun v e => if v = "" then e.text else v) entries)

/-- The function `translateEntries`: empty input short-circuits with no upstream call;
otherwise one text-model call, then response processing. -/
def translateEntries (entries : List ExtractedEntry) (u : Upstream) :
    Except PipelineError (List String) × Upstream :=
  if entries.length = 0 then (.ok [], u)
  else
    let (response, u') := u.next
    (translateStage entries response, u')

/-- One step of the claim-level description of the index merge: an item
whose `index` field numerically equals `i` overwrites the accumulator with
its `translation` string (empty when the translation is not a string);
every other item leaves the accumulator alone. -/
def specStep (i : Nat) (acc : String) (item : Json) : String :=
  match jsonField item "index" with
  | some (.num q) => if q = (i : ℚ) then translationValue item else acc
  | _ => acc

/-- The accumulated model-provided translation for entry index `i`, as the
specification words it: last write wins among the items addressing `i`,
starting from the empty string. -/
def specAccum (rawItems : List Json) (i : Nat) : String :=
  rawItems.foldl (specStep i) ""

/-! ## RenderStage -/

/-- The part list `response.candidates?.[0]?.content?.parts ?? []`. -/
def candidateParts (response : ModelResponse) : List Part :=
  ((((response.candidates).bind List.head?).bind Candidate.content).bind Content.parts).getD []

/-- Truthiness of `part.inlineData?.data`: present and non-empty. -/
def partHasImageData (p : Part) : Bool :=
  match p.inlineData with
  | some d =>
    match d.data with
    | some s => s ≠ ""
    | none => false
  | none => false

/-- The response-processing half of `renderImage`: first part with truthy
inline data, else the `MissingRenderedImage` error. -/
def renderStage (response : ModelResponse) : Except PipelineError String :=
  match (candidateParts response).find? partHasImageData with
  | some imagePart =>
    (match imagePart.inlineData with
     | some d =>
       (match d.data with
        | some s => if s = "" then .error .missingRenderedImage else .ok s
        | none => .error .missingRenderedImage)
     | none => .error .missingRenderedImage)
  | none => .error .missingRenderedImage

/-- The function `renderImage`: one image-modality call, then response processing. -/
def renderImage (u : Upstream) : Except PipelineError String × Upstream :=
  let (response, u') := u.next
  (renderStage response, u')

/-! ## Orchestrator -/

/-- Final state of a `recreateImageWithTranslatedText` invocation: the value
or error, the resulting file system, and the number of upstream calls. -/
structure RecreateOutcome where
  result : Except PipelineError String
  fs : FS
  calls : Nat

/-- Final state of an `extractAndTranslateText` invocation (never writes). -/
structure ExtractOutcome where
  result : Except PipelineError (List ExtractedTranslation)
  calls : Nat

/-- The operation `recreateImageWithTranslatedText` from `src/pipeline.js`, in its source
order: input-exists check; effective output path; output-overwrite guard
(`ensureOutputWritable`: skipped entirely under `force`); read and encode
the input; resolve the credential; extraction call; translation call (which
itself short-circuits on zero entries); then either the verbatim input
bytes (zero entries) or a render call; decode and write; return the path. -/
def recreateImageWithTranslatedText (request : TranslateRequest) (env : Option String)
    (fs : FS) (pending : List ModelResponse) : RecreateOutcome :=
  if (fs request.inputPath).isNone then
    ⟨.error (.inputNotFound request.inputPath), fs, 0⟩
  else
    let outputPath := request.outputPath.getD (defaultOutputPath request.inputPath)
    if request.force.getD false = false ∧ (fs outputPath).isSome then
      ⟨.error (.outputExists outputPath), fs, 0⟩
    else
      match readInlineImage fs request.inputPath with
      | .error e => ⟨.error e, fs, 0⟩
      | .ok inlineImage =>
        match resolveApiKey request.apiKey env with
        | .error e => ⟨.error e, fs, 0⟩
        | .ok _ =>
          let (entriesE, u1) := extractTextEntries ⟨pending, 0⟩
          match entriesE with
          | .error e => ⟨.error e, fs, u1.calls⟩
          | .ok entries =>
            let (translationsE, u2) := translateEntries entries u1
            match translationsE with
            | .error e => ⟨.error e, fs, u2.calls⟩
            | .ok _ =>
              let (outputE, u3) :=
                if entries.length = 0 then ((.ok inlineImage.data : Except PipelineError String), u2)
                else renderImage u2
              match outputE with
              | .error e => ⟨.error e, fs, u3.calls⟩
              | .ok outputBase64 =>
                ⟨.ok outputPath, fs.write outputPath (base64Decode outputBase64), u3.calls⟩

/-- The operation `extractAndTranslateText` from `src/pipeline.js`, in its source order:
input-exists check; read and encode the input; resolve the credential;
extraction call; translation call; zip entries with translations into
result rows (`translations[index] ?? entry.text` as a defensive fallback). -/
def extractAndTranslateText (request : TranslateRequest) (env : Option String)
    (fs : FS) (pending : List ModelResponse) : ExtractOutcome :=
  if (fs request.inputPath).isNone then
    ⟨.error (.inputNotFound request.inputPath), 0⟩
  else
    match readInlineImage fs request.inputPath with
    | .error e => ⟨.error e, 0⟩
    | .ok _ =>
      match resolveApiKey request.apiKey env with
      | .error e => ⟨.error e, 0⟩
      | .ok _ =>
        let (entriesE, u1) := extractTextEntries ⟨pending, 0⟩
        match entriesE with
        | .error e => ⟨.error e, u1.calls⟩
        | .ok entries =>
          let (translationsE, u2) := translateEntries entries u1
          match translationsE with
          | .error e => ⟨.error e, u2.calls⟩
          | .ok translations =>
            ⟨.ok (entries.mapIdx (fun i entry =>
              { sourceText := entry.text
                sourceLanguage := entry.language
                translatedText := (translations[i]?).getD entry.text })), u2.calls⟩

/-! ## Lemmas: base64 round-trip -/

/-- Decoding inverts encoding digit-wise on the sextet range. -/
theorem b64Index_b64Char : ∀ k : Nat, k < 64 → b64Index (b64Char k) = some k := by
  decide

/-- Padding characters are skipped by the decoder. -/
theorem b64Index_pad : b64Index '=' = none := by decide

/-- Base64 decoding inverts base64 encoding (the `writeFile` of a verbatim
copy restores exactly the bytes `readInlineImage` encoded). -/
theorem base64_roundtrip : ∀ bytes : List (Fin 256), base64Decode (base64Encode bytes) = bytes := by
  have aux : ∀ n (bytes : List (Fin 256)), bytes.length ≤ n →
      decodeSextets ((encodeChunks bytes).filterMap b64Index) = bytes := by
    intro n
    induction n with
    | zero =>
      intro bytes h
      have : bytes = [] := List.length_eq_zero.mp (Nat.le_zero.mp h)
      subst this
      rfl
    | succ n ih =>
      intro bytes h
      match bytes with
      | [] => rfl
      | [a] =>
        have ha := a.isLt
        simp only [encodeChunks, List.filterMap_cons,
          b64Index_b64Char (a.val / 4) (by omega),
          b64Index_b64Char (a.val % 4 * 16) (by omega), b64Index_pad,
          List.filterMap_nil, decodeSextets]
        refine List.cons_eq_cons.mpr ⟨Fin.ext ?_, rfl⟩
        show a.val / 4 % 64 * 4 + a.val % 4 * 16 % 64 / 16 = a.val
        omega
      | [a, b] =>
        have ha := a.isLt
        have hb := b.isLt
        simp only [encodeChunks, List.filterMap_cons,
          b64Index_b64Char (a.val / 4) (by omega),
          b64Index_b64Char (a.val % 4 * 16 + b.val / 16) (by omega),
          b64Index_b64Char (b.val % 16 * 4) (by omega), b64Index_pad,
          List.filterMap_nil, decodeSextets]
        refine List.cons_eq_cons.mpr ⟨Fin.ext ?_, List.cons_eq_cons.mpr ⟨Fin.ext ?_, rfl⟩⟩
        · show a.val / 4 % 64 * 4 + (a.val % 4 * 16 + b.val / 16) % 64 / 16 = a.val
          omega
        · show (a.val % 4 * 16 + b.val / 16) % 64 % 16 * 16 + b.val % 16 * 4 % 64 / 4 = b.val
          omega
      | a :: b :: c :: rest =>
        have ha := a.isLt
        have hb := b.isLt
        have hc := c.isLt
        have hrest : rest.length ≤ n := by
          simp only [List.length_cons] at h
          omega
        simp only [encodeChunks, List.filterMap_cons,
          b64Index_b64Char (a.val / 4) (by omega),
          b64Index_b64Char (a.val % 4 * 16 + b.val / 16) (by omega),
          b64Index_b64Char (b.val % 16 * 4 + c.val / 64) (by omega),
          b64Index_b64Char (c.val % 64) (by omega), decodeSextets]
        refine List.cons_eq_cons.mpr ⟨Fin.ext ?_, List.cons_eq_cons.mpr ⟨Fin.ext ?_,
          List.cons_eq_cons.mpr ⟨Fin.ext ?_, ih rest hrest⟩⟩⟩
        · show a.val / 4 % 64 * 4 + (a.val % 4 * 16 + b.val / 16) % 64 / 16 = a.val
          omega
        · show (a.val % 4 * 16 + b.val / 16) % 64 % 16 * 16 +
            (b.val % 16 * 4 + c.val / 64) % 64 / 4 = b.val
          omega
        · show (b.val % 16 * 4 + c.val / 64) % 64 % 4 * 64 + c.val % 64 % 64 = c.val
          omega
  intro bytes
  exact aux bytes.length bytes (Nat.le_refl _)

/-! ## Lemmas: the index-aligned translation merge -/

/-- Applying one raw item never changes the output array's length. -/
theorem applyTranslationItem_length (len : Nat) (acc : List String) (item : Json) :
    (applyTranslationItem len acc item).length = acc.length := by
  unfold applyTranslationItem
  repeat' split
  all_goals simp [List.length_set]

/-- Folding the raw items never changes the output array's length. -/
theorem foldl_applyTranslationItem_length (len : Nat) (rawItems : List Json) :
    ∀ acc : List String, (rawItems.foldl (applyTranslationItem len) acc).length = acc.length := by
  induction rawItems with
  | nil => intro acc; rfl
  | cons item rest ih =>
    intro acc
    simp only [List.foldl_cons]
    rw [ih, applyTranslationItem_length]

/-- The merged output array has exactly one slot per entry. -/
theorem mergeTranslations_length (len : Nat) (rawItems : List Json) :
    (mergeTranslations len rawItems).length = len := by
  unfold mergeTranslations
  rw [foldl_applyTranslationItem_length, List.length_replicate]

/-- A numeric `index` equal to `i : Nat` is nonnegative, below any bound
above `i`, integral, and recovers `i` — and conversely. -/
theorem rat_index_eq_iff (q : ℚ) (i len : Nat) (hi : i < len) :
    q = (i : ℚ) ↔ ¬(q < 0 ∨ (len : ℚ) ≤ q) ∧ q.den = 1 ∧ q.num.toNat = i := by
  constructor
  · rintro rfl
    refine ⟨?_, by simp, by simp⟩
    push_neg
    exact ⟨by positivity, by exact_mod_cast hi⟩
  · rintro ⟨hr, hd, hn⟩
    push_neg at hr
    have hq : (q.num : ℚ) = q := (Rat.den_eq_one_iff q).mp hd
    have hnum : 0 ≤ q.num := Rat.num_nonneg.mpr hr.1
    have : q.num = (i : ℤ) := by
      rw [← hn, Int.toNat_of_nonneg hnum]
    rw [← hq, this]
    norm_cast

/-- Slot `i` after applying one raw item is the claim's one-step update of
slot `i` before it. -/
theorem applyTranslationItem_getElem (len i : Nat) (hi : i < len) (acc : List String)
    (hl : acc.length = len) (item : Json) (a : String) (hga : acc[i]? = some a) :
    (applyTranslationItem len acc item)[i]? = some (specStep i a item) := by
  unfold applyTranslationItem specStep
  match hf : jsonField item "index" with
  | none => simpa using hga
  | some .null | some (.bool _) | some (.str _) | some (.arr _) | some (.obj _) =>
    simpa using hga
  | some (.num q) =>
    simp only
    by_cases hq : q = (i : ℚ)
    · have hcond := (rat_index_eq_iff q i len hi).mp hq
      rw [if_neg hcond.1, if_pos hcond.2.1, hcond.2.2, if_pos hq]
      exact List.getElem?_set_self (by omega)
    · rw [if_neg hq]
      by_cases hr : q < 0 ∨ (len : ℚ) ≤ q
      · rw [if_pos hr]; exact hga
      · rw [if_neg hr]
        by_cases hd : q.den = 1
        · rw [if_pos hd]
          have hne : q.num.toNat ≠ i := by
            intro heq
            exact hq ((rat_index_eq_iff q i len hi).mpr ⟨hr, hd, heq⟩)
          rw [List.getElem?_set_ne hne]
          exact hga
        · rw [if_neg hd]; exact hga

/-- Slot `i` after folding the raw items is the claim's accumulation over
them, started from slot `i`'s initial value. -/
theorem foldl_applyTranslationItem_getElem (len i : Nat) (hi : i < len) :
    ∀ (rawItems : List Json) (acc : List String), acc.length = len →
      ∀ a, acc[i]? = some a →
        (rawItems.foldl (applyTranslationItem len) acc)[i]? = some (rawItems.foldl (specStep i) a) := by
  intro rawItems
  induction rawItems with
  | nil => intro acc _ a hga; simpa using hga
  | cons item rest ih =>
    intro acc hl a hga
    simp only [List.foldl_cons]
    exact ih (applyTranslationItem len acc item)
      (by rw [applyTranslationItem_length, hl]) (specStep i a item)
      (applyTranslationItem_getElem len i hi acc hl item a hga)

/-- Slot `i` of the merged output array is exactly the claim's accumulated
translation for index `i`. -/
theorem mergeTranslations_getElem (len i : Nat) (hi : i < len) (rawItems : List Json) :
    (mergeTranslations len rawItems)[i]? = some (specAccum rawItems i) := by
  unfold mergeTranslations specAccum
  exact foldl_applyTranslationItem_getElem len i hi rawItems (List.replicate len "")
    (List.length_replicate len "") "" (List.getElem?_replicate_of_lt hi)

/-- When the response carries text that parses to a JSON array, the
translation stage succeeds with the merged-and-defaulted output list. -/
theorem translateStage_eq (entries : List ExtractedEntry) (resp : ModelResponse)
    (s : String) (rawItems : List Json)
    (hs : resp.text = some s) (hp : parseJsonArray s = .ok rawItems) :
    translateStage entries resp =
      .ok ((mergeTranslations entries.length rawItems).zipWith
        (fun v e => if v = "" then e.text else v) entries) := by
  unfold translateStage
  rw [hs, Option.getD_some, hp]

/-- Whatever the raw response was, a successful translation stage returns
one slot per entry, and every slot is non-empty provided every entry's
source text is. -/
theorem translateStage_ok_shape (entries : List ExtractedEntry) (resp : ModelResponse)
    (translations : List String)
    (hok : translateStage entries resp = .ok translations)
    (hentries : ∀ e ∈ entries, e.text ≠ "") :
    translations.length = entries.length ∧ ∀ x ∈ translations, x ≠ "" := by
  unfold translateStage at hok
  split at hok
  · exact absurd hok (by simp)
  · rename_i rawItems heq
    have hts : translations =
        (mergeTranslations entries.length rawItems).zipWith
          (fun v e => if v = "" then e.text else v) entries := by
      exact (Except.ok.injEq _ _).mp hok.symm
    subst hts
    constructor
    · rw [List.length_zipWith, mergeTranslations_length, Nat.min_self]
    · intro x hx
      obtain ⟨i, hi, hxe⟩ := List.mem_iff_getElem.mp hx
      rw [List.getElem_zipWith] at hxe
      subst hxe
      split
      · exact hentries _ (List.getElem_mem _)
      · assumption

/-! ## Claim C1 -/

/-- Each possible outcome of the bracket-recovery path. -/
theorem bracketFallback_cases (cs : List Char) :
    (∃ items, bracketFallback cs = .ok items) ∨
    bracketFallback cs = .error .malformedModelOutput ∨
    (∃ slice, bracketSlice cs = some slice ∧ jsonParseChars slice = none ∧
      bracketFallback cs = .error .jsonParseError) := by
  cases hbs : bracketSlice cs with
  | none =>
    exact Or.inr (Or.inl (by unfold bracketFallback; rw [hbs]))
  | some slice =>
    have hred : bracketFallback cs =
        (match jsonParseChars slice with
         | some (Json.arr items) => Except.ok items
         | some _ => .error .malformedModelOutput
         | none => .error .jsonParseError) := by
      unfold bracketFallback
      rw [hbs]
    cases hsp : jsonParseChars slice with
    | none => exact Or.inr (Or.inr ⟨slice, rfl, hsp, by rw [hred, hsp]⟩)
    | some v =>
      cases v
      case arr items => exact Or.inl ⟨items, by rw [hred, hsp]⟩
      all_goals exact Or.inr (Or.inl (by rw [hred, hsp]))

/-- The function `parseJsonArray` either succeeds on the direct attempt or equals the
bracket-recovery path. -/
theorem parseJsonArray_direct_or_fallback (s : String) :
    (∃ items, parseJsonArray s = .ok items) ∨
    parseJsonArray s = bracketFallback (unfencedText s.data) := by
  cases hdir : jsonParseChars (unfencedText s.data) with
  | none => exact Or.inr (by simp [parseJsonArray, hdir])
  | some v =>
    cases v
    case arr items => exact Or.inl ⟨items, by simp [parseJsonArray, hdir]⟩
    all_goals exact Or.inr (by simp [parseJsonArray, hdir])

/-- C1 (amended): for every input string, `parseJsonArray` either returns a
JSON array, or fails with the `MalformedModelOutput` error (whose message is
exactly "Model output did not contain a valid JSON array."), or — in the one
remaining case, where the unfenced text contains a `[` before its last `]`
but the enclosed span is not valid JSON — propagates the raw `JSON.parse`
error uncaught. -/
theorem parseJsonArray_error_contract :
    (∀ s : String,
      (∃ items, parseJsonArray s = .ok items) ∨
      parseJsonArray s = .error .malformedModelOutput ∨
      (∃ slice, bracketSlice (unfencedText s.data) = some slice ∧
        jsonParseChars slice = none ∧ parseJsonArray s = .error .jsonParseError)) ∧
    PipelineError.malformedModelOutput.message =
      "Model output did not contain a valid JSON array." := by
  refine ⟨fun s => ?_, rfl⟩
  rcases parseJsonArray_direct_or_fallback s with ⟨items, h⟩ | heq
  · exact Or.inl ⟨items, h⟩
  · rcases bracketFallback_cases (unfencedText s.data) with ⟨items, h⟩ | h | ⟨slice, h1, h2, h3⟩
    · exact Or.inl ⟨items, heq.trans h⟩
    · exact Or.inr (Or.inl (heq.trans h))
    · exact Or.inr (Or.inr ⟨slice, h1, h2, heq.trans h3⟩)

/-- C1 counterexample: on prose whose first `[` precedes the last `]` but
whose enclosed span is not valid JSON, `parseJsonArray` raises the raw
`JSON.parse` error, not `MalformedModelOutput` — refuting the claim that the
only possible failure carries the `MalformedModelOutput` message. -/
theorem parseJsonArray_raw_parse_error_counterexample :
    parseJsonArray "x [a] y" = .error .jsonParseError ∧
      PipelineError.jsonParseError ≠ PipelineError.malformedModelOutput := by
  exact ⟨rfl, by decide⟩

/-! ## Claim C7 -/

/-- C7: every supported extension (compared after lower-casing, hence in any
letter case) maps to its documented media type; any other extension — the
empty one included — fails with `UnsupportedFormat`, whose message names the
offending extension, or `(none)` when there is none. -/
theorem inferMimeType_extension_table :
    ∀ p : String,
      (jsToLower (extname p) = ".png" → inferMimeType p = .ok "image/png") ∧
      ((jsToLower (extname p) = ".jpg" ∨ jsToLower (extname p) = ".jpeg") →
        inferMimeType p = .ok "image/jpeg") ∧
      (jsToLower (extname p) = ".webp" → inferMimeType p = .ok "image/webp") ∧
      (jsToLower (extname p) = ".heic" → inferMimeType p = .ok "image/heic") ∧
      (SUPPORTED_EXTENSIONS.contains (jsToLower (extname p)) = false →
        inferMimeType p = .error (.unsupportedFormat (jsToLower (extname p))) ∧
        (PipelineError.unsupportedFormat (jsToLower (extname p))).message =
          "Unsupported image extension: " ++
            (if jsToLower (extname p) = "" then "(none)" else jsToLower (extname p))) := by
  intro p
  refine ⟨fun h => ?_, fun h => ?_, fun h => ?_, fun h => ?_, fun h => ?_⟩
  · simp only [inferMimeType]
    rw [h]
    exact rfl
  · rcases h with h | h <;> (simp only [inferMimeType]; rw [h]; exact rfl)
  · simp only [inferMimeType]
    rw [h]
    exact rfl
  · simp only [inferMimeType]
    rw [h]
    exact rfl
  · refine ⟨?_, rfl⟩
    have hc : ¬ SUPPORTED_EXTENSIONS.contains (jsToLower (extname p)) = true := by
      rw [h]
      simp
    simp only [inferMimeType]
    rw [if_pos hc]

/-- C7 witness: one supported mixed-case extension, one unsupported one,
and an extensionless path. -/
theorem inferMimeType_extension_table_witness :
    inferMimeType "/tmp/a.PNG" = .ok "image/png" ∧
      inferMimeType "photo.gif" = .error (.unsupportedFormat ".gif") ∧
      inferMimeType "noext" = .error (.unsupportedFormat "") := by
  refine ⟨(inferMimeType_extension_table "/tmp/a.PNG").1 rfl, ?_, ?_⟩
  · exact ((inferMimeType_extension_table "photo.gif").2.2.2.2 rfl).1
  · exact ((inferMimeType_extension_table "noext").2.2.2.2 rfl).1

/-! ## Claim C9 -/

/-- C9: a response whose `text` field is absent is read as the empty string
(`response.text ?? ""`), and both the extraction call and the translation
call (on a non-empty entry list, which is the only case that reaches the
network) fail with `MalformedModelOutput` instead of crashing. -/
theorem absent_text_field_malformed :
    ∀ resp : ModelResponse, resp.text = none →
    ∀ entries : List ExtractedEntry, entries ≠ [] →
    ∀ (rest : List ModelResponse) (calls : Nat),
      extractTextEntries ⟨resp :: rest, calls⟩ =
        (.error .malformedModelOutput, ⟨rest, calls + 1⟩) ∧
      translateEntries entries ⟨resp :: rest, calls⟩ =
        (.error .malformedModelOutput, ⟨rest, calls + 1⟩) := by
  intro resp htext entries hne rest calls
  have hempty : parseJsonArray "" = .error .malformedModelOutput := rfl
  have h1 : extractStage resp = .error .malformedModelOutput := by
    unfold extractStage
    rw [htext, Option.getD_none, hempty]
  have h2 : translateStage entries resp = .error .malformedModelOutput := by
    unfold translateStage
    rw [htext, Option.getD_none, hempty]
  have hlen : ¬ entries.length = 0 := fun h => hne (List.length_eq_zero.mp h)
  constructor
  · show (extractStage resp, (⟨rest, calls + 1⟩ : Upstream)) = _
    rw [h1]
  · show (if entries.length = 0 then _ else _) = _
    rw [if_neg hlen]
    show (translateStage entries resp, (⟨rest, calls + 1⟩ : Upstream)) = _
    rw [h2]

/-- C9 witness: a concrete entry list and a response with no text field. -/
theorem absent_text_field_malformed_witness :
    extractTextEntries ⟨[{ text := none, candidates := none }], 0⟩ =
      (.error .malformedModelOutput, ⟨[], 1⟩) ∧
    translateEntries [{ text := "hi", language := none }]
        ⟨[{ text := none, candidates := none }], 0⟩ =
      (.error .malformedModelOutput, ⟨[], 1⟩) :=
  absent_text_field_malformed { text := none, candidates := none } rfl
    [{ text := "hi", language := none }] (by decide) [] 0

/-! ## Claim C6 -/

/-- C6: the render stage returns the inline data of the first content part
carrying (truthy, i.e. present and non-empty) inline image data; when no
part carries any — absent candidate list and empty part list included, both
of which make the part list empty — it fails with `MissingRenderedImage`,
whose message is exactly "Gemini did not return an image.". -/
theorem renderStage_first_image_part :
    ∀ response : ModelResponse,
      ((candidateParts response).find? partHasImageData = none →
        renderStage response = .error .missingRenderedImage ∧
        PipelineError.missingRenderedImage.message = "Gemini did not return an image.") ∧
      (∀ p, (candidateParts response).find? partHasImageData = some p →
        ∃ d s, p.inlineData = some d ∧ d.data = some s ∧ s ≠ "" ∧
          renderStage response = .ok s) := by
  intro response
  constructor
  · intro h
    refine ⟨?_, rfl⟩
    unfold renderStage
    rw [h]
  · intro p hp
    have hT : partHasImageData p = true := List.find?_some hp
    obtain ⟨pid, ptext⟩ := p
    cases pid with
    | none => simp [partHasImageData] at hT
    | some d =>
      obtain ⟨dd⟩ := d
      cases dd with
      | none => simp [partHasImageData] at hT
      | some s =>
        have hs : s ≠ "" := by simpa [partHasImageData] using hT
        refine ⟨⟨some s⟩, s, rfl, rfl, hs, ?_⟩
        unfold renderStage
        rw [hp]
        show (if s = "" then Except.error PipelineError.missingRenderedImage else Except.ok s) = _
        rw [if_neg hs]

/-- C6 witness: a response whose only part carries inline data, and one
with an empty part list. -/
theorem renderStage_first_image_part_witness :
    renderStage ⟨none, some [⟨some ⟨some [⟨some ⟨some "IMG"⟩, none⟩]⟩⟩]⟩ = .ok "IMG" ∧
    renderStage ⟨none, some [⟨some ⟨some []⟩⟩]⟩ = .error .missingRenderedImage := by
  constructor
  · obtain ⟨d, s, hd, hds, hne, hok⟩ :=
      (renderStage_first_image_part ⟨none, some [⟨some ⟨some [⟨some ⟨some "IMG"⟩, none⟩]⟩⟩]⟩).2
        ⟨some ⟨some "IMG"⟩, none⟩ rfl
    have hd' : (⟨some "IMG"⟩ : PartInlineData) = d := by injection hd
    have hs' : some "IMG" = d.data := by rw [← hd']
    rw [hds] at hs'
    have hsv : s = "IMG" := by injection hs' with h; exact h.symm
    rw [hsv] at hok
    exact hok
  · exact ((renderStage_first_image_part ⟨none, some [⟨some ⟨some []⟩⟩]⟩).1 rfl).1

/-! ## Claim C3 -/

/-- C3: on a non-empty entry list and a response whose text parses to a
JSON array, `translateEntries` makes its one call and returns one slot per
entry, where slot `i` carries the accumulated (last-write-wins) model
translation for index `i` when that is a non-empty string, and the entry's
own source text otherwise; items with a non-numeric or out-of-range index
never touch any slot. -/
theorem translateEntries_index_merge :
    ∀ (entries : List ExtractedEntry) (resp : ModelResponse) (rest : List ModelResponse)
      (calls : Nat) (s : String) (rawItems : List Json),
      entries ≠ [] → resp.text = some s → parseJsonArray s = .ok rawItems →
      ∃ translations,
        translateEntries entries ⟨resp :: rest, calls⟩ =
          (.ok translations, ⟨rest, calls + 1⟩) ∧
        translations.length = entries.length ∧
        ∀ i (hi : i < entries.length),
          translations[i]? =
            some (if specAccum rawItems i = "" then (entries.get ⟨i, hi⟩).text
              else specAccum rawItems i) := by
  intro entries resp rest calls s rawItems hne hs hp
  have hlen : ¬ entries.length = 0 := fun h => hne (List.length_eq_zero.mp h)
  refine ⟨(mergeTranslations entries.length rawItems).zipWith
    (fun v e => if v = "" then e.text else v) entries, ?_, ?_, ?_⟩
  · show (if entries.length = 0 then _ else _) = _
    rw [if_neg hlen]
    show (translateStage entries resp, (⟨rest, calls + 1⟩ : Upstream)) = _
    rw [translateStage_eq entries resp s rawItems hs hp]
  · rw [List.length_zipWith, mergeTranslations_length, Nat.min_self]
  · intro i hi
    rw [List.getElem?_zipWith]
    rw [mergeTranslations_getElem entries.length i hi rawItems, List.getElem?_eq_getElem hi]
    simp [List.get_eq_getElem]

/-- C3 witness: two entries; the model addresses only index 1, so slot 0
falls back to its source text. -/
theorem translateEntries_index_merge_witness :
    ∃ translations,
      translateEntries [⟨"a", none⟩, ⟨"b", none⟩]
          ⟨[{ text := some "[\x7b\"index\":1,\"translation\":\"B\"\x7d]" }], 0⟩ = (.ok translations, ⟨[], 1⟩) ∧
      translations.length = 2 ∧
      ∀ i (hi : i < ([⟨"a", none⟩, ⟨"b", none⟩] : List ExtractedEntry).length),
        translations[i]? =
          some (if specAccum [Json.obj [("index", Json.num 1), ("translation", Json.str "B")]] i = ""
            then (([⟨"a", none⟩, ⟨"b", none⟩] : List ExtractedEntry).get ⟨i, hi⟩).text
            else specAccum [Json.obj [("index", Json.num 1), ("translation", Json.str "B")]] i) := by
  exact translateEntries_index_merge [⟨"a", none⟩, ⟨"b", none⟩]
    { text := some "[\x7b\"index\":1,\"translation\":\"B\"\x7d]" } [] 0 "[\x7b\"index\":1,\"translation\":\"B\"\x7d]"
    [Json.obj [("index", Json.num 1), ("translation", Json.str "B")]]
    (by decide) rfl (by with_unfolding_all rfl)

/-! ## Lemmas: orchestrator paths -/

/-- The verbatim-copy path of `recreateImageWithTranslatedText`: when the
preamble passes and extraction yields zero entries, the outcome is a single
upstream call and the input bytes written unchanged to the output path. -/
theorem recreate_empty_copy_core
    (request : TranslateRequest) (env : Option String) (fs : FS)
    (bytes : List (Fin 256)) (resp : ModelResponse) (rest : List ModelResponse)
    (mime key : String)
    (hfs : fs request.inputPath = some bytes)
    (hw : request.force.getD false = true ∨
      fs (request.outputPath.getD (defaultOutputPath request.inputPath)) = none)
    (hm : inferMimeType request.inputPath = .ok mime)
    (hk : resolveApiKey request.apiKey env = .ok key)
    (hext : extractStage resp = .ok []) :
    recreateImageWithTranslatedText request env fs (resp :: rest) =
      ⟨.ok (request.outputPath.getD (defaultOutputPath request.inputPath)),
       fs.write (request.outputPath.getD (defaultOutputPath request.inputPath)) bytes, 1⟩ := by
  have hinline : readInlineImage fs request.inputPath = .ok ⟨base64Encode bytes, mime⟩ := by
    unfold readInlineImage
    rw [hm, hfs]
  have hwritable : ¬(request.force.getD false = false ∧
      (fs (request.outputPath.getD (defaultOutputPath request.inputPath))).isSome = true) := by
    rcases hw with h | h
    · rintro ⟨h1, -⟩
      rw [h] at h1
      cases h1
    · rintro ⟨-, h2⟩
      rw [h] at h2
      cases h2
  unfold recreateImageWithTranslatedText
  rw [hfs]
  rw [if_neg (by simp)]
  rw [if_neg hwritable]
  rw [hinline, hk]
  simp only [extractTextEntries, Upstream.next]
  rw [hext]
  simp only [translateEntries, List.length_nil, if_pos]
  rw [base64_roundtrip]

/-! ## Claim C4 -/

/-- C4: when the preamble passes and the extraction stage yields zero
entries, `recreateImageWithTranslatedText` makes exactly one upstream call
(translation short-circuits, the render stage is skipped) and the bytes
written at the output path are exactly the input file's bytes: decoding the
base64 encoding round-trips. -/
theorem recreate_empty_extraction_verbatim_copy :
    ∀ (request : TranslateRequest) (env : Option String) (fs : FS)
      (bytes : List (Fin 256)) (resp : ModelResponse) (rest : List ModelResponse)
      (mime key : String),
      fs request.inputPath = some bytes →
      (request.force.getD false = true ∨
        fs (request.outputPath.getD (defaultOutputPath request.inputPath)) = none) →
      inferMimeType request.inputPath = .ok mime →
      resolveApiKey request.apiKey env = .ok key →
      extractStage resp = .ok [] →
      (recreateImageWithTranslatedText request env fs (resp :: rest)).result =
          .ok (request.outputPath.getD (defaultOutputPath request.inputPath)) ∧
      (recreateImageWithTranslatedText request env fs (resp :: rest)).calls = 1 ∧
      (recreateImageWithTranslatedText request env fs (resp :: rest)).fs
          (request.outputPath.getD (defaultOutputPath request.inputPath)) = some bytes := by
  intro request env fs bytes resp rest mime key hfs hw hm hk hext
  rw [recreate_empty_copy_core request env fs bytes resp rest mime key hfs hw hm hk hext]
  refine ⟨rfl, rfl, ?_⟩
  show (if (request.outputPath.getD (defaultOutputPath request.inputPath)) =
      (request.outputPath.getD (defaultOutputPath request.inputPath)) then some bytes
    else fs (request.outputPath.getD (defaultOutputPath request.inputPath))) = some bytes
  rw [if_pos rfl]

/-- C4 witness: a concrete input file, an `[]` extraction response, and an
explicit output path. -/
theorem recreate_empty_extraction_verbatim_copy_witness :
    (recreateImageWithTranslatedText
        { inputPath := "in.png", outputPath := some "out.png" } (some "key")
        (fun p => if p = "in.png" then some [137, 80, 78] else none)
        [{ text := some "[]" }]).result = .ok "out.png" ∧
    (recreateImageWithTranslatedText
        { inputPath := "in.png", outputPath := some "out.png" } (some "key")
        (fun p => if p = "in.png" then some [137, 80, 78] else none)
        [{ text := some "[]" }]).calls = 1 ∧
    (recreateImageWithTranslatedText
        { inputPath := "in.png", outputPath := some "out.png" } (some "key")
        (fun p => if p = "in.png" then some [137, 80, 78] else none)
        [{ text := some "[]" }]).fs "out.png" = some [137, 80, 78] :=
  recreate_empty_extraction_verbatim_copy
    { inputPath := "in.png", outputPath := some "out.png" } (some "key")
    (fun p => if p = "in.png" then some [137, 80, 78] else none)
    [137, 80, 78] { text := some "[]" } [] "image/png" "key"
    rfl (Or.inr rfl) rfl rfl rfl

/-! ## Claim C5 -/

/-- C5: with the overwrite flag off and the effective output path already
present, `recreateImageWithTranslatedText` fails with `OutputExists`
(message naming the path and pointing at `--force`), makes zero upstream
calls, and leaves the file system untouched; with the flag on, the
existence check is skipped and (here along the zero-entry path, with the
preamble passing) the operation succeeds and overwrites the existing file. -/
theorem recreate_overwrite_guard :
    ∀ (request : TranslateRequest) (env : Option String) (fs : FS)
      (pending : List ModelResponse) (existing : List (Fin 256)),
      (fs request.inputPath).isSome →
      fs (request.outputPath.getD (defaultOutputPath request.inputPath)) = some existing →
      (request.force.getD false = false →
        (recreateImageWithTranslatedText request env fs pending).result =
          .error (.outputExists
            (request.outputPath.getD (defaultOutputPath request.inputPath))) ∧
        (recreateImageWithTranslatedText request env fs pending).calls = 0 ∧
        (recreateImageWithTranslatedText request env fs pending).fs = fs ∧
        (PipelineError.outputExists
            (request.outputPath.getD (defaultOutputPath request.inputPath))).message =
          "Output file already exists: " ++
            (request.outputPath.getD (defaultOutputPath request.inputPath)) ++
            ". Use --force to overwrite.") ∧
      (request.force.getD false = true →
        ∀ (bytes : List (Fin 256)) (resp : ModelResponse) (rest : List ModelResponse)
          (mime key : String),
          fs request.inputPath = some bytes →
          inferMimeType request.inputPath = .ok mime →
          resolveApiKey request.apiKey env = .ok key →
          extractStage resp = .ok [] →
          pending = resp :: rest →
          (recreateImageWithTranslatedText request env fs pending).result =
            .ok (request.outputPath.getD (defaultOutputPath request.inputPath)) ∧
          (recreateImageWithTranslatedText request env fs pending).fs
            (request.outputPath.getD (defaultOutputPath request.inputPath)) = some bytes) := by
  intro request env fs pending existing hin hout
  constructor
  · intro hforce
    have hres : recreateImageWithTranslatedText request env fs pending =
        ⟨.error (.outputExists
          (request.outputPath.getD (defaultOutputPath request.inputPath))), fs, 0⟩ := by
      unfold recreateImageWithTranslatedText
      rw [if_neg (by rw [Option.isNone_iff_eq_none]; intro h; rw [h] at hin; cases hin)]
      rw [if_pos ⟨hforce, by rw [hout]; rfl⟩]
    rw [hres]
    exact ⟨rfl, rfl, rfl, rfl⟩
  · intro hforce bytes resp rest mime key hfs hm hk hext hpending
    subst hpending
    rw [recreate_empty_copy_core request env fs bytes resp rest mime key hfs (Or.inl hforce)
      hm hk hext]
    refine ⟨rfl, ?_⟩
    show (if (request.outputPath.getD (defaultOutputPath request.inputPath)) =
        (request.outputPath.getD (defaultOutputPath request.inputPath)) then some bytes
      else fs (request.outputPath.getD (defaultOutputPath request.inputPath))) = some bytes
    rw [if_pos rfl]

/-- C5 witness: the guard fires on an existing output without `--force`
(zero calls, file system unchanged), and `--force` overwrites it. -/
theorem recreate_overwrite_guard_witness :
    ((recreateImageWithTranslatedText
        { inputPath := "in.png", outputPath := some "out.png" } (some "key")
        (fun p => if p = "in.png" then some [1, 2] else if p = "out.png" then some [9] else none)
        [{ text := some "[]" }]).result =
      .error (.outputExists "out.png") ∧
     (recreateImageWithTranslatedText
        { inputPath := "in.png", outputPath := some "out.png" } (some "key")
        (fun p => if p = "in.png" then some [1, 2] else if p = "out.png" then some [9] else none)
        [{ text := some "[]" }]).calls = 0) ∧
    ((recreateImageWithTranslatedText
        { inputPath := "in.png", outputPath := some "out.png", force := some true } (some "key")
        (fun p => if p = "in.png" then some [1, 2] else if p = "out.png" then some [9] else none)
        [{ text := some "[]" }]).result = .ok "out.png" ∧
     (recreateImageWithTranslatedText
        { inputPath := "in.png", outputPath := some "out.png", force := some true } (some "key")
        (fun p => if p = "in.png" then some [1, 2] else if p = "out.png" then some [9] else none)
        [{ text := some "[]" }]).fs "out.png" = some [1, 2]) := by
  constructor
  · have h := (recreate_overwrite_guard
      { inputPath := "in.png", outputPath := some "out.png" } (some "key")
      (fun p => if p = "in.png" then some [1, 2] else if p = "out.png" then some [9] else none)
      [{ text := some "[]" }] [9] rfl rfl).1 rfl
    exact ⟨h.1, h.2.1⟩
  · have h := (recreate_overwrite_guard
      { inputPath := "in.png", outputPath := some "out.png", force := some true } (some "key")
      (fun p => if p = "in.png" then some [1, 2] else if p = "out.png" then some [9] else none)
      [{ text := some "[]" }] [9] rfl rfl).2 rfl
      [1, 2] { text := some "[]" } [] "image/png" "key" rfl rfl rfl rfl rfl
    exact h

/-! ## Claim C2 -/

/-- C2 counterexample: an existing input with an unsupported extension and
no credential anywhere fails with `UnsupportedFormat`, not
`MissingCredential` — the file is read (via MimeResolver) before the
credential is resolved, refuting the claimed (a)-(b)-(c) order and its
consequence. -/
theorem credential_order_counterexample :
    (extractAndTranslateText { inputPath := "in.gif" } none
        (fun p => if p = "in.gif" then some [] else none) []).result =
      .error (.unsupportedFormat ".gif") ∧
    (recreateImageWithTranslatedText { inputPath := "in.gif", outputPath := some "out.gif" }
        none (fun p => if p = "in.gif" then some [] else none) []).result =
      .error (.unsupportedFormat ".gif") ∧
    PipelineError.unsupportedFormat ".gif" ≠ PipelineError.missingCredential := by
  exact ⟨rfl, rfl, by decide⟩

/-- C2 (amended): both operations check the input's existence first, then
read and base64-encode it via MimeResolver (for the recreate operation,
after the output-overwrite guard), and only then resolve the credential;
consequently a request whose input exists, whose extension is supported
(and, for the recreate operation, whose output check passes), but whose
credential is absent, fails with `MissingCredential` before any upstream
call — while an unsupported extension fails with `UnsupportedFormat`
instead, as the counterexample shows. -/
theorem credential_resolved_after_image_read :
    ∀ (request : TranslateRequest) (fs : FS) (pending : List ModelResponse) (mime : String),
      (fs request.inputPath).isSome →
      request.apiKey = none →
      inferMimeType request.inputPath = .ok mime →
      ((extractAndTranslateText request none fs pending).result = .error .missingCredential ∧
       (extractAndTranslateText request none fs pending).calls = 0) ∧
      ((request.force.getD false = true ∨
          fs (request.outputPath.getD (defaultOutputPath request.inputPath)) = none) →
        (recreateImageWithTranslatedText request none fs pending).result =
          .error .missingCredential ∧
        (recreateImageWithTranslatedText request none fs pending).calls = 0) := by
  intro request fs pending mime hin hka hm
  obtain ⟨bytes, hbytes⟩ := Option.isSome_iff_exists.mp hin
  have hinline : readInlineImage fs request.inputPath = .ok ⟨base64Encode bytes, mime⟩ := by
    unfold readInlineImage
    rw [hm, hbytes]
  have hkey : resolveApiKey request.apiKey none = .error .missingCredential := by
    rw [hka]
    rfl
  constructor
  · have hres : extractAndTranslateText request none fs pending =
        ⟨.error .missingCredential, 0⟩ := by
      unfold extractAndTranslateText
      rw [hbytes]
      rw [if_neg (by simp)]
      rw [hinline, hkey]
    rw [hres]
    exact ⟨rfl, rfl⟩
  · intro hw
    have hwritable : ¬(request.force.getD false = false ∧
        (fs (request.outputPath.getD (defaultOutputPath request.inputPath))).isSome = true) := by
      rcases hw with h | h
      · rintro ⟨h1, -⟩
        rw [h] at h1
        cases h1
      · rintro ⟨-, h2⟩
        rw [h] at h2
        cases h2
    have hres : recreateImageWithTranslatedText request none fs pending =
        ⟨.error .missingCredential, fs, 0⟩ := by
      unfold recreateImageWithTranslatedText
      rw [hbytes]
      rw [if_neg (by simp)]
      rw [if_neg hwritable]
      rw [hinline, hkey]
    rw [hres]
    exact ⟨rfl, rfl⟩

/-- C2 (amended) witness: a supported extension, an existing input, a free
output path, and no credential. -/
theorem credential_resolved_after_image_read_witness :
    ((extractAndTranslateText { inputPath := "a.png", outputPath := some "out.png" } none
        (fun p => if p = "a.png" then some [] else none) []).result =
      .error .missingCredential ∧
     (extractAndTranslateText { inputPath := "a.png", outputPath := some "out.png" } none
        (fun p => if p = "a.png" then some [] else none) []).calls = 0) ∧
    (recreateImageWithTranslatedText { inputPath := "a.png", outputPath := some "out.png" } none
        (fun p => if p = "a.png" then some [] else none) []).result =
      .error .missingCredential := by
  have h := credential_resolved_after_image_read
    { inputPath := "a.png", outputPath := some "out.png" }
    (fun p => if p = "a.png" then some [] else none) [] "image/png" rfl rfl rfl
  exact ⟨h.1, (h.2 (Or.inr rfl)).1⟩

/-! ## Claim C8 -/

/-- Every entry a successful extraction stage returns has non-empty text
(the stage filters empty-trimmed texts out). -/
theorem extractStage_ok_mem (resp : ModelResponse) (entries : List ExtractedEntry)
    (h : extractStage resp = .ok entries) : ∀ e ∈ entries, e.text ≠ "" := by
  unfold extractStage at h
  split at h
  · exact absurd h (by simp)
  · have hents : ((_ : List Json).map normalizeEntry).filter (fun e => e.text ≠ "") = entries :=
      (Except.ok.injEq _ _).mp h
    intro e he
    rw [← hents] at he
    have := (List.mem_filter.mp he).2
    exact of_decide_eq_true this

/-- A successful `translateEntries` returns one slot per entry, all
non-empty when the entries' texts are. -/
theorem translateEntries_fst_ok (entries : List ExtractedEntry) (u : Upstream)
    (translations : List String)
    (h : (translateEntries entries u).1 = .ok translations)
    (hentries : ∀ e ∈ entries, e.text ≠ "") :
    translations.length = entries.length ∧ ∀ x ∈ translations, x ≠ "" := by
  unfold translateEntries at h
  split at h
  · rename_i hzero
    have : ([] : List String) = translations := (Except.ok.injEq _ _).mp h
    subst this
    exact ⟨by rw [hzero]; rfl, by intro x hx; cases hx⟩
  · exact translateStage_ok_shape entries _ translations h hentries

/-- C8: every row of a successful `extractAndTranslateText` run has
non-empty `sourceText` and non-empty `translatedText` — extraction filters
out empty texts, and the fallback substitutes the (non-empty) source text
for every empty or missing translation. -/
theorem extract_rows_nonempty :
    ∀ (request : TranslateRequest) (env : Option String) (fs : FS)
      (pending : List ModelResponse) (rows : List ExtractedTranslation),
      (extractAndTranslateText request env fs pending).result = .ok rows →
      ∀ row ∈ rows, row.sourceText ≠ "" ∧ row.translatedText ≠ "" := by
  intro request env fs pending rows h row hrow
  unfold extractAndTranslateText at h
  split at h
  · exact absurd h (by simp)
  · split at h
    · exact absurd h (by simp)
    · split at h
      · exact absurd h (by simp)
      · split at h
        rename_i entriesE u1 hpairE
        split at h
        · exact absurd h (by simp)
        · rename_i entries
          split at h
          rename_i translationsE u2 hpairT
          split at h
          · exact absurd h (by simp)
          · rename_i translations
            have hrows : entries.mapIdx (fun i entry =>
                ({ sourceText := entry.text
                   sourceLanguage := entry.language
                   translatedText := (translations[i]?).getD entry.text } :
                  ExtractedTranslation)) = rows := by
              simpa using h
            have hext : extractStage (Upstream.next ⟨pending, 0⟩).1 = .ok entries := by
              have h2 : (extractTextEntries ⟨pending, 0⟩).1 = .ok entries := by rw [hpairE]
              exact h2
            have htransE : (translateEntries entries u1).1 = .ok translations := by
              rw [hpairT]
            have htext := extractStage_ok_mem _ entries hext
            have htrans := translateEntries_fst_ok entries u1 translations htransE htext
            rw [← hrows] at hrow
            obtain ⟨i, hi, hrowi⟩ := List.mem_iff_getElem.mp hrow
            have hilen : i < entries.length := by
              simpa [List.length_mapIdx] using hi
            rw [List.getElem_mapIdx] at hrowi
            subst hrowi
            refine ⟨htext _ (List.getElem_mem _), ?_⟩
            have hit : i < translations.length := by
              rw [htrans.1]
              exact hilen
            show ((translations[i]?).getD _) ≠ ""
            rw [List.getElem?_eq_getElem hit, Option.getD_some]
            exact htrans.2 _ (List.getElem_mem _)

/-- C8 witness: a successful run whose translation response is an empty
array, so the row's translation falls back to the (non-empty) source. -/
theorem extract_rows_nonempty_witness :
    ({ sourceText := "hola", sourceLanguage := some "es", translatedText := "hola" } :
        ExtractedTranslation).sourceText ≠ "" ∧
    ({ sourceText := "hola", sourceLanguage := some "es", translatedText := "hola" } :
        ExtractedTranslation).translatedText ≠ "" :=
  extract_rows_nonempty { inputPath := "a.png" } (some "key")
    (fun p => if p = "a.png" then some [] else none)
    [{ text := some "[\x7b\"text\":\"hola\",\"language\":\"es\"\x7d]" }, { text := some "[]" }]
    [{ sourceText := "hola", sourceLanguage := some "es", translatedText := "hola" }]
    (by with_unfolding_all rfl)
    { sourceText := "hola", sourceLanguage := some "es", translatedText := "hola" }
    (by simp)

end Tongues
